import Mathlib

/-!
Shallow embedding of `packages/protobuf/src/write.ts`, the Protobuf text
emitter of the TypeSpec (cadl) repository, together with theorems checking
the natural-language specification against it.

The AST types (`ProtoFile`, `ProtoDeclaration`, `StreamingMode`, ...) live in
`packages/protobuf/src/ast.ts`, which is not part of the provided sources;
their shapes are modelled from the spec's data-model section (§3) and from
how `write.ts` consumes them.  All rendering functions are translated
directly from `write.ts`.
-/

/-- Modelled from the spec: a Protobuf type expression (`ProtoType` of
`ast.ts`): a scalar name, a named reference, or `map<key, value>`.  In
`write.ts` the map key is consumed as a plain string. -/
inductive ProtoType where
  | map (key : String) (value : ProtoType)
  | ref (r : String)
  | scalar (s : String)
deriving DecidableEq, Repr

/-- Modelled from the spec: a reservation entry of a message — a single
reserved field number, an inclusive numeric range (a two-element array in
the TypeScript source), or a reserved name. -/
inductive Reservation where
  | num (n : Nat)
  | range (lo hi : Nat)
  | name (s : String)
deriving DecidableEq, Repr

/-- Modelled from the spec: a method declaration (`ProtoMethodDeclaration`):
name, input type, return type, and a bitmask-style streaming flag with two
independent bits. -/
structure ProtoMethodDeclaration where
  name : String
  input : ProtoType
  returns : ProtoType
  stream : Nat
deriving DecidableEq, Repr

-- Modelled from the spec: `StreamingMode` is a bitmask with two
-- independent bits, one for input streaming and one for output streaming.
namespace StreamingMode

/-- The input-streaming bit. -/
def In : Nat := 1

/-- The output-streaming bit. -/
def Out : Nat := 2

end StreamingMode

/-- Modelled from the spec: a service declaration: a name and an ordered
sequence of method declarations. -/
structure ProtoServiceDeclaration where
  name : String
  operations : List ProtoMethodDeclaration
deriving DecidableEq, Repr

/-- Modelled from the spec: a field declaration: name, type, positive
integer index and a repeated flag. -/
structure ProtoFieldDeclaration where
  name : String
  type : ProtoType
  index : Nat
  repeated : Bool
deriving DecidableEq, Repr

/-- Modelled from the spec: an enum declaration: name, ordered
(variant-name, integer) pairs, and the allow-alias flag. -/
structure ProtoEnumDeclaration where
  name : String
  allowAlias : Bool
  variants : List (String × Int)
deriving DecidableEq, Repr

/-- Modelled from the spec: the closed set of declaration kinds
(`ProtoDeclaration`): message, service, field, oneof, enum, method.
Messages and oneofs carry nested declarations. -/
inductive ProtoDeclaration where
  | message (name : String) (declarations : List ProtoDeclaration)
      (reservations : Option (List Reservation))
  | service (s : ProtoServiceDeclaration)
  | field (f : ProtoFieldDeclaration)
  | oneof (name : String) (declarations : List ProtoDeclaration)
  | enum (e : ProtoEnumDeclaration)
  | method (m : ProtoMethodDeclaration)

/-- Modelled from the spec: a file-level option value is a string or some
other (e.g. numeric) value; `write.ts` only distinguishes string-typed
values (quoted) from everything else (rendered via `.toString()`, carried
here as the resulting string). -/
inductive ProtoFileOptionValue where
  | str (s : String)
  | nonString (repr : String)
deriving DecidableEq, Repr

/-- Modelled from the spec: a `ProtoFile`: optional package name, ordered
imports, file-level options (in entry order, as produced by
`Object.entries`), and ordered top-level declarations. -/
structure ProtoFile where
  package : Option String
  imports : List String
  options : List (String × ProtoFileOptionValue)
  declarations : List ProtoDeclaration

-- #region utils (translated from the `utils` region of write.ts)

/-- Embeds `" ".repeat(depth)`: a string of `depth` spaces. -/
def spaceRepeat (depth : Nat) : String :=
  String.mk (List.replicate depth ' ')

/-- Embeds `indent` from write.ts: prepends `depth` spaces to every non-empty
line; empty lines pass through unchanged.  (The source defaults `depth`
to 2; every call site in write.ts uses that default, written explicitly
here.) -/
def indent (it : List String) (depth : Nat) : List String :=
  it.map (fun v => if v != "" then spaceRepeat depth ++ v else v)

/-- Embeds `Array.prototype.join(sep)` on a list of strings. -/
def joinWith (sep : String) : List String → String
  | [] => ""
  | [s] => s
  | s :: ss => s ++ sep ++ joinWith sep ss

/-- Concatenation of a list of strings (used to state decompositions of
the accumulating loops in `writeProtoFile`). -/
def strConcat : List String → String
  | [] => ""
  | s :: ss => s ++ strConcat ss

/-- Embeds `collect` from write.ts: materializes an iterable into an array; on
lists it is the identity. -/
def collect {α : Type} (it : List α) : List α := it

/-- Embeds `selectMap` from write.ts, specialized to its only use site (two
buckets keyed by a boolean selector): partitions `source` into the items
selected `true` and those selected `false`, preserving relative order
within each bucket, and maps each bucket with its delegate. -/
def selectMap {α β γ : Type} (source : List α) (select : α → Bool)
    (onTrue : α → β) (onFalse : α → γ) : List β × List γ :=
  match source with
  | [] => ([], [])
  | v :: rest =>
      let r := selectMap rest select onTrue onFalse
      if select v then (onTrue v :: r.1, r.2) else (r.1, onFalse v :: r.2)

-- #endregion

/-- Embeds `PROTO_HEADER` from write.ts. -/
def PROTO_HEADER : String :=
  "/* Generated by Microsoft TypeSpec */\n\nsyntax = \"proto3\";\n"

/-- Embeds `writeType` from write.ts (`matchType` of ast.ts inlined as a match). -/
def writeType : ProtoType → String
  | .map k v => "map<" ++ k ++ ", " ++ writeType v ++ ">"
  | .ref r => r
  | .scalar s => s

/-- Embeds `writeMethod` from write.ts: a single `rpc` line with independent
`stream ` prefixes from the two streaming bits. -/
def writeMethod (decl : ProtoMethodDeclaration) : String :=
  let inStream := if decl.stream &&& StreamingMode.In != 0 then "stream " else ""
  let outStream := if decl.stream &&& StreamingMode.Out != 0 then "stream " else ""
  "rpc " ++ decl.name ++ "(" ++ inStream ++ writeType decl.input ++ ") returns ("
    ++ outStream ++ writeType decl.returns ++ ");"

/-- Embeds `writeField` from write.ts. -/
def writeField (decl : ProtoFieldDeclaration) : String :=
  let lead := if decl.repeated then "repeated " else ""
  lead ++ writeType decl.type ++ " " ++ decl.name ++ " = " ++ toString decl.index ++ ";"

/-- The selector of write.ts's `selectMap` call: numeric entries (single
numbers and ranges — arrays in the source) go to the `reservedNumbers`
bucket, names to `reservedNames`. -/
def reservationIsNumber : Reservation → Bool
  | .name _ => false
  | _ => true

/-- The `reservedNumbers` delegate: `v[0] + " to " + v[1]` for ranges,
`v.toString()` otherwise (for a string, `toString` is the string itself). -/
def reservationNumberDelegate : Reservation → String
  | .range lo hi => toString lo ++ " to " ++ toString hi
  | .num n => toString n
  | .name s => s

/-- The `reservedNames` delegate: `"${v.toString()}"` (JavaScript
`toString` on the entry, double-quoted). -/
def reservationNameDelegate : Reservation → String
  | .range lo hi => "\"" ++ toString lo ++ "," ++ toString hi ++ "\""
  | .num n => "\"" ++ toString n ++ "\""
  | .name s => "\"" ++ s ++ "\""

/-- Embeds `writeReservations` from write.ts (taking the message's optional
reservation list; `decl.reservations ?? []`). -/
def writeReservations (reservations : Option (List Reservation)) : List String :=
  let r := selectMap (reservations.getD []) reservationIsNumber
      reservationNumberDelegate reservationNameDelegate
  let reservedNumbers := r.1
  let reservedNames := r.2
  if reservedNumbers.length + reservedNames.length > 0 then
    (if reservedNumbers.length > 0 then
      ["reserved " ++ joinWith ", " reservedNumbers ++ ";"] else []) ++
    (if reservedNames.length > 0 then
      ["reserved " ++ joinWith ", " reservedNames ++ ";"] else []) ++
    [""]
  else []

/-- Embeds `writeEnum` from write.ts. -/
def writeEnum (decl : ProtoEnumDeclaration) : List String :=
  ("enum " ++ decl.name ++ " \x7b") ::
    ((if decl.allowAlias then
        "  option allow_alias = true;" ::
          (if decl.variants.length > 0 then [""] else [])
      else []) ++
     indent (decl.variants.map (fun v => v.1 ++ " = " ++ toString v.2 ++ ";")) 2 ++
     ["\x7d"])

/-- Embeds `writeService` from write.ts. -/
def writeService (decl : ProtoServiceDeclaration) : List String :=
  let head := "service " ++ decl.name ++ " \x7b"
  if decl.operations.length > 0 then
    head :: (indent (decl.operations.map writeMethod) 2 ++ ["\x7d"])
  else [head ++ "\x7d"]

mutual

/-- Embeds `writeDeclaration` from write.ts: exhaustive dispatch over the six
declaration kinds.  The `message` and `oneof` arms are the bodies of
`writeMessage` and `writeOneOf` from the source (inlined here because they
recurse into `writeDeclaration` through their child lists). -/
def writeDeclaration : ProtoDeclaration → List String
  | .message name declarations reservations =>
      -- writeMessage from write.ts
      let head := "message " ++ name ++ " \x7b"
      if declarations.length > 0 ∨ (reservations.getD []).length > 0 then
        head :: (indent (writeReservations reservations) 2 ++
                 indent (writeDeclarationList declarations) 2 ++ ["\x7d"])
      else [head ++ "\x7d"]
  | .oneof name declarations =>
      -- writeOneOf from write.ts
      ("oneof " ++ name ++ " \x7b") ::
        (indent (writeDeclarationList declarations) 2 ++ ["\x7d"])
  | .service s => writeService s
  | .field f => [writeField f]
  | .enum e => writeEnum e
  | .method m => [writeMethod m]

/-- Embeds `flatMap(declarations, writeDeclaration)` from write.ts, as explicit
recursion so that the mutual definition is structural. -/
def writeDeclarationList : List ProtoDeclaration → List String
  | [] => []
  | d :: ds => writeDeclaration d ++ writeDeclarationList ds

end

/-- Rendering of one file-level option value: string-typed values are
double-quoted, every other value kind is its verbatim stringification. -/
def optionValueString : ProtoFileOptionValue → String
  | .str s => "\"" ++ s ++ "\""
  | .nonString r => r

/-- Embeds `writeProtoFile` from write.ts: the accumulating `result` variable is
threaded through `let` rebindings and the `for` loops become `foldl`. -/
def writeProtoFile (file : ProtoFile) : String :=
  let result := PROTO_HEADER
  let result := if (file.package.getD "") != "" then
      result ++ ("\npackage " ++ file.package.getD "" ++ ";\n") else result
  let result := file.imports.foldl
      (fun r i => r ++ ("\nimport \"" ++ i ++ "\";")) result
  let result := if file.imports.length > 0 then result ++ "\n" else result
  let result := file.options.foldl
      (fun r p => r ++ ("\noption (" ++ p.1 ++ ") = " ++ optionValueString p.2)) result
  let result := if file.options.length > 0 then result ++ "\n" else result
  file.declarations.foldl
    (fun r d => r ++ ("\n" ++ joinWith "\n" (collect (writeDeclaration d)) ++ "\n")) result

-- #region helper lemmas

/-- The last character of a string, used to state "ends with a semicolon"
and "ends with a newline" facts transparently. -/
def lastChar (s : String) : Option Char :=
  s.data.getLast?

lemma lastChar_append_char (s : String) (t : String) (c : Char)
    (h : t.data = [c]) : lastChar (s ++ t) = some c := by
  simp [lastChar, String.data_append, h]

lemma lastChar_append_right (s t : String) (h : t ≠ "") :
    lastChar (s ++ t) = lastChar t := by
  have hd : t.data ≠ [] := by
    intro hnil
    exact h (String.ext (by simp [hnil]))
  obtain ⟨c, hc⟩ := Option.isSome_iff_exists.mp (List.getLast?_isSome.mpr hd)
  simp [lastChar, String.data_append, List.getLast?_append, hc]

lemma lastChar_append_left (s t : String) (h : t = "") :
    lastChar (s ++ t) = lastChar s := by
  subst h
  simp [String.append_empty]

lemma ne_empty_of_lastChar (s : String) (c : Char) (h : lastChar s = some c) :
    s ≠ "" := by
  intro he
  subst he
  simp [lastChar] at h

lemma append_semicolon_ne_empty (s : String) : s ++ ";" ≠ "" :=
  ne_empty_of_lastChar _ ';' (lastChar_append_char s ";" ';' rfl)

/-- A `for`-loop accumulating string appends is the initial accumulator
followed by the concatenation of the produced pieces. -/
lemma foldl_strAppend {α : Type} (g : α → String) (l : List α) (init : String) :
    l.foldl (fun r x => r ++ g x) init = init ++ strConcat (l.map g) := by
  induction l generalizing init with
  | nil => simp [strConcat, String.append_empty]
  | cons x xs ih =>
      simp only [List.foldl_cons, List.map_cons, strConcat, ih,
        String.append_assoc]

lemma strConcat_append (a b : List String) :
    strConcat (a ++ b) = strConcat a ++ strConcat b := by
  induction a with
  | nil => simp [strConcat, String.empty_append]
  | cons x xs ih => simp [strConcat, ih, String.append_assoc]

-- #endregion

-- #region file assembly decomposition

/-- The package statement piece of `writeProtoFile`. -/
def pkgSection (file : ProtoFile) : String :=
  if (file.package.getD "") != "" then
    "\npackage " ++ file.package.getD "" ++ ";\n"
  else ""

/-- The imports piece of `writeProtoFile` (one `import` statement per path,
in order, then a separating newline when non-empty). -/
def importsSection (file : ProtoFile) : String :=
  strConcat (file.imports.map (fun i => "\nimport \"" ++ i ++ "\";")) ++
    (if file.imports.length > 0 then "\n" else "")

/-- The file-level options piece of `writeProtoFile`. -/
def optionsSection (file : ProtoFile) : String :=
  strConcat (file.options.map
      (fun p => "\noption (" ++ p.1 ++ ") = " ++ optionValueString p.2)) ++
    (if file.options.length > 0 then "\n" else "")

/-- The top-level declarations piece of `writeProtoFile`. -/
def declarationsSection (file : ProtoFile) : String :=
  strConcat (file.declarations.map
      (fun d => "\n" ++ joinWith "\n" (writeDeclaration d) ++ "\n"))

lemma if_append_push (c : Prop) [Decidable c] (a b : String) :
    (if c then a ++ b else a) = a ++ (if c then b else "") := by
  by_cases h : c <;> simp [h, String.append_empty]

/-- Lemma: `writeProtoFile` decomposes into its five sequential sections. -/
lemma writeProtoFile_sections (file : ProtoFile) :
    writeProtoFile file =
      PROTO_HEADER ++ pkgSection file ++ importsSection file ++
        optionsSection file ++ declarationsSection file := by
  unfold writeProtoFile pkgSection importsSection optionsSection
    declarationsSection
  rw [foldl_strAppend, foldl_strAppend, foldl_strAppend]
  simp only [collect]
  rw [if_append_push, if_append_push, if_append_push]
  simp only [String.append_assoc, String.append_empty]

-- #endregion

-- #region more helper lemmas

/-- Lemma: `selectMap` is order-preserving partition-then-map: each bucket is the
filter of the source by the selector, mapped by its delegate. -/
lemma selectMap_eq_filter_map {α β γ : Type} (source : List α) (select : α → Bool)
    (onTrue : α → β) (onFalse : α → γ) :
    selectMap source select onTrue onFalse =
      ((source.filter select).map onTrue,
       (source.filter (fun a => !(select a))).map onFalse) := by
  induction source with
  | nil => simp [selectMap]
  | cons x xs ih =>
      by_cases h : select x <;>
        simp [selectMap, h, ih, List.filter_cons]

lemma spaceRepeat_two : spaceRepeat 2 = "  " := rfl

/-- Indenting a list of lines that are all non-empty prefixes every line
with the spaces. -/
lemma indent_of_ne_empty (l : List String) (depth : Nat)
    (h : ∀ v ∈ l, v ≠ "") :
    indent l depth = l.map (fun v => spaceRepeat depth ++ v) := by
  unfold indent
  apply List.map_congr_left
  intro a ha
  simp [bne_iff_ne, h a ha]

lemma indent_map_of_ne_empty {α : Type} (l : List α) (f : α → String)
    (depth : Nat) (h : ∀ a ∈ l, f a ≠ "") :
    indent (l.map f) depth = l.map (fun a => spaceRepeat depth ++ f a) := by
  rw [indent_of_ne_empty _ _ (by simpa using h), List.map_map]
  rfl

lemma mem_writeDeclarationList {l : String} {d : ProtoDeclaration}
    {ds : List ProtoDeclaration} (hd : d ∈ ds) (hl : l ∈ writeDeclaration d) :
    l ∈ writeDeclarationList ds := by
  induction ds with
  | nil => cases hd
  | cons x xs ih =>
      rw [writeDeclarationList]
      rcases List.mem_cons.mp hd with h | h
      · exact List.mem_append.mpr (Or.inl (h ▸ hl))
      · exact List.mem_append.mpr (Or.inr (ih h))

lemma mem_indent {l : String} {L : List String} (hl : l ∈ L) (hne : l ≠ "")
    (depth : Nat) : (spaceRepeat depth ++ l) ∈ indent L depth := by
  unfold indent
  refine List.mem_map.mpr ⟨l, hl, ?_⟩
  simp [bne_iff_ne, hne]

lemma lastChar_pkgSection (file : ProtoFile) :
    pkgSection file = "" ∨ lastChar (pkgSection file) = some '\n' := by
  unfold pkgSection
  by_cases h : (file.package.getD "") != ""
  · right
    simp only [h, if_pos]
    rw [lastChar_append_right _ _ (by decide)]
    rfl
  · left
    simp [h]

lemma lastChar_importsSection (file : ProtoFile) :
    importsSection file = "" ∨ lastChar (importsSection file) = some '\n' := by
  unfold importsSection
  rcases file.imports with _ | ⟨i, is⟩
  · left
    simp [strConcat]
  · right
    rw [if_pos (by simp)]
    exact lastChar_append_char _ _ '\n' rfl

lemma lastChar_optionsSection (file : ProtoFile) :
    optionsSection file = "" ∨ lastChar (optionsSection file) = some '\n' := by
  unfold optionsSection
  rcases file.options with _ | ⟨o, os⟩
  · left
    simp [strConcat]
  · right
    rw [if_pos (by simp)]
    exact lastChar_append_char _ _ '\n' rfl

/-- Without declarations, the assembled file text always ends in a
newline (header, package, imports and options each leave a trailing
newline whenever they are the last non-empty section). -/
lemma lastChar_writeProtoFile_of_no_declarations (file : ProtoFile)
    (h : file.declarations = []) :
    lastChar (writeProtoFile file) = some '\n' := by
  rw [writeProtoFile_sections]
  have hdecl : declarationsSection file = "" := by
    simp [declarationsSection, h, strConcat]
  rw [lastChar_append_left _ _ hdecl]
  rcases lastChar_optionsSection file with ho | ho
  · rw [lastChar_append_left _ _ ho]
    rcases lastChar_importsSection file with hi | hi
    · rw [lastChar_append_left _ _ hi]
      rcases lastChar_pkgSection file with hp | hp
      · rw [lastChar_append_left _ _ hp]
        rfl
      · rw [lastChar_append_right _ _ (ne_empty_of_lastChar _ _ hp)]
        exact hp
    · rw [lastChar_append_right _ _ (ne_empty_of_lastChar _ _ hi)]
      exact hi
  · rw [lastChar_append_right _ _ (ne_empty_of_lastChar _ _ ho)]
    exact ho

-- #endregion

-- #region claim theorems

lemma and_one_ne_zero_eq_testBit (n : Nat) :
    ((n &&& 1 != 0) : Bool) = n.testBit 0 := by
  have h := Nat.and_two_pow n 0
  simp only [pow_zero] at h
  rw [h]
  cases hb : n.testBit 0 <;> simp

lemma and_two_ne_zero_eq_testBit (n : Nat) :
    ((n &&& 2 != 0) : Bool) = n.testBit 1 := by
  have h := Nat.and_two_pow n 1
  rw [show ((2:Nat)^1) = 2 from rfl] at h
  rw [h]
  cases hb : n.testBit 1 <;> simp

/-- Claim C1: a rendered method is a single `rpc` line that is one of the
four strings `rpc M(X) returns (Y);`, `rpc M(stream X) returns (Y);`,
`rpc M(X) returns (stream Y);`, `rpc M(stream X) returns (stream Y);`,
with the input `stream ` prefix present iff the input-streaming bit of the
streaming bitmask is set and the return `stream ` prefix present iff the
output-streaming bit is set, the two bits acting independently. -/
theorem writeMethod_streaming_bits (m : ProtoMethodDeclaration) :
    (writeMethod m =
      "rpc " ++ m.name ++ "(" ++ (if m.stream.testBit 0 then "stream " else "")
        ++ writeType m.input ++ ") returns ("
        ++ (if m.stream.testBit 1 then "stream " else "")
        ++ writeType m.returns ++ ");")
    ∧ writeMethod m ∈ [
        "rpc " ++ m.name ++ "(" ++ writeType m.input ++ ") returns ("
          ++ writeType m.returns ++ ");",
        "rpc " ++ m.name ++ "(" ++ ("stream " ++ writeType m.input) ++ ") returns ("
          ++ writeType m.returns ++ ");",
        "rpc " ++ m.name ++ "(" ++ writeType m.input ++ ") returns ("
          ++ ("stream " ++ writeType m.returns) ++ ");",
        "rpc " ++ m.name ++ "(" ++ ("stream " ++ writeType m.input) ++ ") returns ("
          ++ ("stream " ++ writeType m.returns) ++ ");"]
    ∧ writeMethod ⟨"M", ProtoType.ref "X", ProtoType.ref "Y", 0⟩
        = "rpc M(X) returns (Y);"
    ∧ writeMethod ⟨"M", ProtoType.ref "X", ProtoType.ref "Y", StreamingMode.In⟩
        = "rpc M(stream X) returns (Y);"
    ∧ writeMethod ⟨"M", ProtoType.ref "X", ProtoType.ref "Y", StreamingMode.Out⟩
        = "rpc M(X) returns (stream Y);"
    ∧ writeMethod ⟨"M", ProtoType.ref "X", ProtoType.ref "Y",
          StreamingMode.In ||| StreamingMode.Out⟩
        = "rpc M(stream X) returns (stream Y);" := by
  have heq : writeMethod m =
      "rpc " ++ m.name ++ "(" ++ (if m.stream.testBit 0 then "stream " else "")
        ++ writeType m.input ++ ") returns ("
        ++ (if m.stream.testBit 1 then "stream " else "")
        ++ writeType m.returns ++ ");" := by
    simp only [writeMethod, StreamingMode.In, StreamingMode.Out,
      and_one_ne_zero_eq_testBit, and_two_ne_zero_eq_testBit,
      String.append_assoc]
  refine ⟨heq, ?_, rfl, rfl, rfl, rfl⟩
  rw [heq]
  cases hb0 : m.stream.testBit 0 <;> cases hb1 : m.stream.testBit 1 <;>
    simp only [hb0, hb1, Bool.false_eq_true, if_false, if_true,
      String.append_empty, String.empty_append, String.append_assoc,
      List.mem_cons, List.not_mem_nil, or_false] <;>
    tauto

-- #endregion

/-- Claim C2: rendering is a pure function of the input tree — two
invocations of `writeProtoFile` on the same tree value yield byte-identical
strings.  In this shallow embedding `writeProtoFile` is a total function of
its argument with no other state, so determinism is function congruence. -/
theorem writeProtoFile_deterministic (f1 f2 : ProtoFile) (h : f1 = f2) :
    writeProtoFile f1 = writeProtoFile f2 :=
  congrArg writeProtoFile h

theorem writeProtoFile_deterministic_witness :
    writeProtoFile ⟨some "pkg", ["dep.proto"],
        [("java_package", ProtoFileOptionValue.str "com.example")],
        [ProtoDeclaration.message "Empty" [] none]⟩ =
      writeProtoFile ⟨some "pkg", ["dep.proto"],
        [("java_package", ProtoFileOptionValue.str "com.example")],
        [ProtoDeclaration.message "Empty" [] none]⟩ :=
  writeProtoFile_deterministic
    ⟨some "pkg", ["dep.proto"],
      [("java_package", ProtoFileOptionValue.str "com.example")],
      [ProtoDeclaration.message "Empty" [] none]⟩
    ⟨some "pkg", ["dep.proto"],
      [("java_package", ProtoFileOptionValue.str "com.example")],
      [ProtoDeclaration.message "Empty" [] none]⟩
    rfl

lemma writeField_ne_empty (f : ProtoFieldDeclaration) : writeField f ≠ "" :=
  append_semicolon_ne_empty _

/-- Claim C3: a message with zero nested declarations and zero (or absent)
reservations renders as the single line `message <Name> {}`; the same
message given exactly one field renders as a three-line block with the
field line indented two spaces. -/
theorem writeMessage_empty_collapse (name : String) (f : ProtoFieldDeclaration) :
    writeDeclaration (.message name [] none)
        = ["message " ++ name ++ " \x7b\x7d"]
    ∧ writeDeclaration (.message name [] (some []))
        = ["message " ++ name ++ " \x7b\x7d"]
    ∧ writeDeclaration (.message name [.field f] none)
        = ["message " ++ name ++ " \x7b", "  " ++ writeField f, "\x7d"] := by
  refine ⟨?_, ?_, ?_⟩
  · simp [writeDeclaration, String.append_assoc]
  · simp [writeDeclaration, String.append_assoc]
  · simp [writeDeclaration, writeDeclarationList, writeReservations, selectMap,
      indent, writeField_ne_empty f, spaceRepeat_two]

/-- Claim C7: for an enum with the allow-alias flag set, the first line
inside the body is literally `  option allow_alias = true;`, followed by a
blank line iff there is at least one variant, then one two-space-indented
line `<Name> = <Index>;` per variant in declared order (no sorting, no
dedup). -/
theorem writeEnum_allow_alias (n : String) (vs : List (String × Int)) :
    writeEnum ⟨n, true, vs⟩ =
      ("enum " ++ n ++ " \x7b") :: "  option allow_alias = true;" ::
        ((if vs.length > 0 then [""] else []) ++
         vs.map (fun v => "  " ++ (v.1 ++ " = " ++ toString v.2 ++ ";")) ++
         ["\x7d"]) := by
  have h := indent_map_of_ne_empty vs
      (fun v => v.1 ++ " = " ++ toString v.2 ++ ";") 2
      (fun a _ => append_semicolon_ne_empty _)
  simp [writeEnum, h, spaceRepeat_two]

/-- Claim C4: the reservation renderer partitions entries into a numeric
bucket (`N` / `N to M`) and a name bucket (double-quoted), preserving the
input's relative order within each bucket; it emits at most two
`reserved ...;` lines — numeric first, then names — each only if its
bucket is non-empty, followed by exactly one blank line whenever at least
one reserved line was emitted; no reservations emit nothing. -/
theorem writeReservations_partition (rs : List Reservation) :
    (writeReservations (some rs) =
      (let nums := (rs.filter reservationIsNumber).map reservationNumberDelegate
       let names := (rs.filter (fun r => !(reservationIsNumber r))).map
           reservationNameDelegate
       (if nums.length > 0 then ["reserved " ++ joinWith ", " nums ++ ";"] else []) ++
       (if names.length > 0 then ["reserved " ++ joinWith ", " names ++ ";"] else []) ++
       (if nums.length + names.length > 0 then [""] else [])))
    ∧ writeReservations none = []
    ∧ writeReservations (some [Reservation.num 5, Reservation.range 10 12,
          Reservation.name "old_name"]) =
        ["reserved 5, 10 to 12;", "reserved \"old_name\";", ""]
    ∧ writeReservations (some [Reservation.name "b", Reservation.num 1,
          Reservation.name "a"]) =
        ["reserved 1;", "reserved \"b\", \"a\";", ""] := by
  refine ⟨?_, rfl, rfl, rfl⟩
  unfold writeReservations
  rw [selectMap_eq_filter_map]
  by_cases h1 : (rs.filter reservationIsNumber) = [] <;>
    by_cases h2 : (rs.filter (fun r => !(reservationIsNumber r))) = [] <;>
      simp [h1, h2, List.length_pos]

/-- Claim C5: `writeProtoFile` renders each top-level declaration via the
dispatcher, joins its lines with newlines, and wraps each block in a
leading and a trailing newline; the text before the declarations always
ends in a newline, so exactly one blank line precedes the first block and
consecutive blocks are separated by exactly one blank line. -/
theorem writeProtoFile_declaration_blocks (file : ProtoFile) :
    writeProtoFile file =
      writeProtoFile ⟨file.package, file.imports, file.options, []⟩ ++
        strConcat (file.declarations.map
          (fun d => "\n" ++ joinWith "\n" (writeDeclaration d) ++ "\n"))
    ∧ lastChar (writeProtoFile ⟨file.package, file.imports, file.options, []⟩)
        = some '\n' := by
  constructor
  · rw [writeProtoFile_sections, writeProtoFile_sections]
    simp only [pkgSection, importsSection, optionsSection, declarationsSection,
      List.map_nil, strConcat, String.append_empty, String.append_assoc]
  · exact lastChar_writeProtoFile_of_no_declarations _ rfl

lemma append_ne_empty_right (s t : String) (h : t ≠ "") : s ++ t ≠ "" := by
  intro he
  apply h
  have hlen : s.length + t.length = 0 := by
    simpa [String.length_append] using congrArg String.length he
  have ht : t.length = 0 := by omega
  cases t with
  | mk data =>
      cases data with
      | nil => rfl
      | cons c cs => simp [String.length] at ht

/-- Claim C6 (counterexample): for a top-level message containing a oneof
containing a map-typed field, the field line is indented by four spaces,
not six — the six-space-indented line appears nowhere in the rendered
block. -/
theorem oneof_map_field_six_space_counterexample :
    writeDeclaration (ProtoDeclaration.message "M"
        [ProtoDeclaration.oneof "O"
          [ProtoDeclaration.field
            ⟨"f", ProtoType.map "string" (ProtoType.scalar "string"), 1, false⟩]]
        none) =
      ["message M \x7b", "  oneof O \x7b", "    map<string, string> f = 1;",
       "  \x7d", "\x7d"]
    ∧ "      map<string, string> f = 1;" ∉
        writeDeclaration (ProtoDeclaration.message "M"
          [ProtoDeclaration.oneof "O"
            [ProtoDeclaration.field
              ⟨"f", ProtoType.map "string" (ProtoType.scalar "string"), 1, false⟩]]
          none) := by
  exact ⟨rfl, by decide⟩

/-- Claim C6 (amended): for every top-level message containing a oneof
that itself contains a map-typed field, the rendered output indents that
field's line by exactly four spaces (two nesting levels between the field
and the top-level message, times the fixed two-space indentation unit). -/
theorem oneof_map_field_indent_four (M O : String)
    (rs : Option (List Reservation))
    (msgDecls oneofDecls : List ProtoDeclaration) (f : ProtoFieldDeclaration)
    (k : String) (v : ProtoType) (hf : f.type = ProtoType.map k v)
    (hone : ProtoDeclaration.oneof O oneofDecls ∈ msgDecls)
    (hfld : ProtoDeclaration.field f ∈ oneofDecls) :
    ("    " ++ writeField f) ∈
      writeDeclaration (ProtoDeclaration.message M msgDecls rs) := by
  have h0 : writeField f ∈ writeDeclaration (ProtoDeclaration.field f) := by
    simp [writeDeclaration]
  have h1 : (spaceRepeat 2 ++ writeField f) ∈
      writeDeclaration (ProtoDeclaration.oneof O oneofDecls) := by
    rw [writeDeclaration]
    exact List.mem_cons_of_mem _ (List.mem_append_left _
      (mem_indent (mem_writeDeclarationList hfld h0) (writeField_ne_empty f) 2))
  have h2 : (spaceRepeat 2 ++ (spaceRepeat 2 ++ writeField f)) ∈
      indent (writeDeclarationList msgDecls) 2 :=
    mem_indent (mem_writeDeclarationList hone h1)
      (append_ne_empty_right _ _ (writeField_ne_empty f)) 2
  have hcond : msgDecls.length > 0 ∨ (rs.getD []).length > 0 :=
    Or.inl (List.length_pos.mpr (List.ne_nil_of_mem hone))
  rw [writeDeclaration, if_pos hcond]
  refine List.mem_cons_of_mem _ (List.mem_append_left _
    (List.mem_append_right _ ?_))
  rw [show ("    " : String) = spaceRepeat 2 ++ spaceRepeat 2 from rfl,
    String.append_assoc]
  exact h2

theorem oneof_map_field_indent_four_witness :
    ("    " ++ writeField
        ⟨"f", ProtoType.map "string" (ProtoType.scalar "string"), 1, false⟩) ∈
      writeDeclaration (ProtoDeclaration.message "M"
        [ProtoDeclaration.oneof "O"
          [ProtoDeclaration.field
            ⟨"f", ProtoType.map "string" (ProtoType.scalar "string"), 1, false⟩]]
        none) :=
  oneof_map_field_indent_four "M" "O" none _ _ _ "string"
    (ProtoType.scalar "string") rfl (List.mem_cons_self _ _)
    (List.mem_cons_self _ _)

/-- Claim C8: each file-level option (name, value) is emitted as exactly
one option statement — string-typed values double-quoted, every other
value kind rendered by its verbatim stringification — and one blank
separator line follows the options iff at least one option was emitted. -/
theorem writeProtoFile_options_section (file : ProtoFile) :
    (writeProtoFile file =
      PROTO_HEADER ++ pkgSection file ++ importsSection file ++
        (strConcat (file.options.map
            (fun p => "\noption (" ++ p.1 ++ ") = " ++ optionValueString p.2)) ++
          (if file.options.length > 0 then "\n" else "")) ++
        declarationsSection file)
    ∧ (∀ s, optionValueString (ProtoFileOptionValue.str s) = "\"" ++ s ++ "\"")
    ∧ (∀ r, optionValueString (ProtoFileOptionValue.nonString r) = r) := by
  refine ⟨?_, fun s => rfl, fun r => rfl⟩
  rw [writeProtoFile_sections]
  simp only [optionsSection, String.append_assoc]

/-- Claim C9: `indent` prefixes each non-empty line with exactly `depth`
spaces and passes empty lines through completely unchanged, preserving the
number and order of lines. -/
theorem indent_line_spec (it : List String) (depth i : Nat) :
    (indent it depth).length = it.length
    ∧ (indent it depth).getD i "" =
        (if it.getD i "" = "" then "" else spaceRepeat depth ++ it.getD i "")
    ∧ (spaceRepeat depth).data = List.replicate depth ' ' := by
  refine ⟨by simp [indent], ?_, rfl⟩
  rcases hv : it[i]? with _ | v
  · simp [indent, List.getD, hv]
  · by_cases he : v = "" <;>
      simp [indent, List.getD, hv, he, bne_iff_ne]

/-- Claim C10: each file-level option is emitted as
`option (<name>) = <value>` — the name always wrapped in parentheses and
no trailing semicolon appended by the template (a string-typed value ends
the line with its closing quote) — unlike the package, import, reserved,
field, enum-variant and rpc statements, which all end in `;`. -/
theorem option_statement_no_semicolon (file : ProtoFile)
    (f : ProtoFieldDeclaration) (m : ProtoMethodDeclaration)
    (o : Option (List Reservation)) (n s vn imp : String) (vi : Int) :
    (writeProtoFile file =
      PROTO_HEADER ++ pkgSection file ++ importsSection file ++
        (strConcat (file.options.map
            (fun p => "\noption (" ++ p.1 ++ ") = " ++ optionValueString p.2)) ++
          (if file.options.length > 0 then "\n" else "")) ++
        declarationsSection file)
    ∧ lastChar ("\noption (" ++ n ++ ") = "
        ++ optionValueString (ProtoFileOptionValue.str s)) = some '"'
    ∧ lastChar (writeField f) = some ';'
    ∧ lastChar (writeMethod m) = some ';'
    ∧ ((writeReservations o).all
        (fun l => l == "" || (lastChar l == some ';'))) = true
    ∧ lastChar ("\nimport \"" ++ imp ++ "\";") = some ';'
    ∧ (pkgSection file = "" ∨
        pkgSection file = "\npackage " ++ file.package.getD "" ++ ";" ++ "\n")
    ∧ lastChar ((writeEnum ⟨n, false, [(vn, vi)]⟩).getD 1 "") = some ';' := by
  refine ⟨?_, ?_, ?_, ?_, ?_, ?_, ?_, ?_⟩
  · rw [writeProtoFile_sections]
    simp only [optionsSection, String.append_assoc]
  · have hsplit : "\noption (" ++ n ++ ") = "
        ++ optionValueString (ProtoFileOptionValue.str s)
        = ("\noption (" ++ n ++ ") = " ++ ("\"" ++ s)) ++ "\"" := by
      simp [optionValueString, String.append_assoc]
    rw [hsplit]
    exact lastChar_append_char _ _ '"' rfl
  · unfold writeField
    exact lastChar_append_char _ _ ';' rfl
  · unfold writeMethod
    rw [lastChar_append_right _ _ (by decide)]
    rfl
  · unfold writeReservations
    rw [selectMap_eq_filter_map]
    have key : ∀ x : String,
        ((x ++ ";") == "" || (lastChar (x ++ ";") == some ';')) = true := by
      intro x
      rw [lastChar_append_char x ";" ';' rfl]
      simp
    by_cases h1 : ((o.getD []).filter reservationIsNumber) = [] <;>
      by_cases h2 : ((o.getD []).filter
          (fun r => !(reservationIsNumber r))) = [] <;>
        simp [h1, h2, List.length_pos, key]
  · rw [lastChar_append_right _ _ (by decide)]
    rfl
  · unfold pkgSection
    by_cases h : (file.package.getD "") != ""
    · right
      simp [h, String.append_assoc]
    · left
      simp [h]
  · have hline : (writeEnum ⟨n, false, [(vn, vi)]⟩).getD 1 ""
        = spaceRepeat 2 ++ (vn ++ " = " ++ toString vi ++ ";") := by
      simp [writeEnum, indent, append_semicolon_ne_empty, bne_iff_ne]
    rw [hline, lastChar_append_right _ _ (append_semicolon_ne_empty _)]
    exact lastChar_append_char _ _ ';' rfl

-- #endregion
